import Mathlib

/-
  Verification of the optical-mark decoding pipeline
  (mark_grid.py, read.py, main.py) against its specification.

  The Python sources are shallowly embedded: images are lists of pixel
  rows, numpy integer arithmetic is Nat/Int arithmetic, float arithmetic
  where a claim depends on it is modelled by exact rationals or reals,
  and OpenCV library calls whose internal behaviour a claim does not
  depend on (the ArUco detector, the affine/perspective warps) are
  abstracted as function parameters of the embedding.
-/

set_option maxRecDepth 4000

/-! ## Grid edge generation (mark_grid.py, generate_grid_edges) -/

/--
Models `np.linspace(0, stop, num=n+1, dtype=np.int32)` from
`generate_grid_edges`: `n+1` evenly spaced points from `0` to `stop`
truncated to integers, modelled as exact rational floor `stop*i/n`
(numpy computes in float64 and truncates toward zero; the values here
are nonnegative, so truncation is the floor).
-/
def linspaceInt (stop n : ℕ) : List ℕ :=
  (List.range (n + 1)).map (fun i => stop * i / n)

/--
Models `generate_grid_edges(width, height, cols, rows)` from mark_grid.py:
linspace edges for both axes, with the first and last entries forced to
`0` and the axis extent ("Guarantee boundary coverage in case of
rounding quirks"); `x_edges[-1]` is index `cols` (the last element).
-/
def generate_grid_edges (width height cols rows : ℕ) : List ℕ × List ℕ :=
  let x_edges := ((linspaceInt width cols).set 0 0).set cols width
  let y_edges := ((linspaceInt height rows).set 0 0).set rows height
  (x_edges, y_edges)

/-! ## Bit-matrix export (mark_grid.py, export_black_matrix_as_binary_bytes) -/

/-- The entry `black_matrix[r, c]` for a matrix stored as a list of rows. -/
def matrixEntry (m : List (List ℕ)) (r c : ℕ) : ℕ :=
  (m.getD r []).getD c 0

/--
The packed byte for column `c` of the black matrix: the inner loop
`for r in range(rows): if black_matrix[r, c]: value |= 1 << (7 - r)`.
`rows` is `black_matrix.shape[0]`; the source assumes `rows <= 8`
(for `rows > 8` Python would shift by a negative amount and raise,
so the model is only quoted under the `rows ≤ 8` assumption).
-/
def columnByte (m : List (List ℕ)) (rows c : ℕ) : ℕ :=
  (List.range rows).foldl
    (fun value r => if matrixEntry m r c ≠ 0 then value ||| (1 <<< (7 - r)) else value) 0

/--
Binary digits (most significant first) of `v`, computed with a fuel
argument so the definition is structural; `v` halves at each step, so
any `fuel ≥ v` (we pass `fuel = v`) yields all digits.
-/
def binCharsAux : ℕ → ℕ → List Char
  | 0, _ => []
  | _ + 1, 0 => []
  | fuel + 1, v + 1 =>
    binCharsAux fuel ((v + 1) / 2) ++ [if (v + 1) % 2 = 1 then '1' else '0']

/-- Python `"{v:b}"`: binary digits of `v`, `"0"` for zero. -/
def binChars (v : ℕ) : List Char :=
  if v = 0 then ['0'] else binCharsAux v v

/-- Zero padding to minimum width 8, as in the format spec `08b`. -/
def pad8 (l : List Char) : List Char :=
  List.replicate (8 - l.length) '0' ++ l

/-- The emitted token `f"0b{value:08b},"` for one packed column byte. -/
def byteToken (v : ℕ) : String :=
  "0b" ++ String.mk (pad8 (binChars v)) ++ ","

/--
The per-column token lines of `export_black_matrix_as_binary_bytes`
(the `lines` list built by its first loop), one token per column in
increasing column order; `rows, cols = black_matrix.shape`.
-/
def exportLines (m : List (List ℕ)) : List String :=
  let rows := m.length
  let cols := (m.getD 0 []).length
  (List.range cols).map (fun c => byteToken (columnByte m rows c))

/--
The grouping loop of `export_black_matrix_as_binary_bytes`:
`for i in range(0, len(lines), 8): extend(lines[i:i+8]); if i+8 < len(lines): append(",")`.
-/
def groupLines : List String → List String
  | a1 :: a2 :: a3 :: a4 :: a5 :: a6 :: a7 :: a8 :: b :: rest =>
    a1 :: a2 :: a3 :: a4 :: a5 :: a6 :: a7 :: a8 :: "," :: groupLines (b :: rest)
  | l => l

/--
Models `export_black_matrix_as_binary_bytes(black_matrix, path)` from
mark_grid.py, modelled as the list of text lines written to the file
(one list entry per written line).
-/
def export_black_matrix_as_binary_bytes (m : List (List ℕ)) : List String :=
  groupLines (exportLines m)

/-- Chunks of at most 8 consecutive tokens (a specification-side view of the grouping). -/
def chunks8 : List String → List (List String)
  | a1 :: a2 :: a3 :: a4 :: a5 :: a6 :: a7 :: a8 :: b :: rest =>
    [a1, a2, a3, a4, a5, a6, a7, a8] :: chunks8 (b :: rest)
  | [] => []
  | l => [l]

/-- Joining chunks with a single separator line `","` between consecutive chunks. -/
def sepJoin : List (List String) → List String
  | [] => []
  | [g] => g
  | g :: gs => g ++ "," :: sepJoin gs

/-! ## Claim C4: grid edge coverage -/

lemma linspaceInt_length (w n : ℕ) : (linspaceInt w n).length = n + 1 := by
  simp [linspaceInt]

lemma linspaceInt_getElem? (w n i : ℕ) (hi : i < n + 1) :
    (linspaceInt w n)[i]? = some (w * i / n) := by
  simp [linspaceInt, List.getElem?_map, List.getElem?_range hi]

lemma set_eq_self_of_getElem? {α : Type} (l : List α) (i : ℕ) (v : α)
    (h : l[i]? = some v) : l.set i v = l := by
  apply List.ext_getElem?
  intro j
  rcases eq_or_ne i j with rfl | hne
  · rw [List.getElem?_set_self', h]
    rfl
  · exact List.getElem?_set_ne hne

lemma generate_grid_edges_fst (w h c r : ℕ) (hc : 0 < c) :
    (generate_grid_edges w h c r).1 = linspaceInt w c := by
  unfold generate_grid_edges
  rw [set_eq_self_of_getElem? (linspaceInt w c) 0 0 (by simpa using linspaceInt_getElem? w c 0 (by omega)),
    set_eq_self_of_getElem? (linspaceInt w c) c w
      (by rw [linspaceInt_getElem? w c c (by omega), Nat.mul_div_cancel _ hc])]

lemma generate_grid_edges_snd (w h c r : ℕ) (hr : 0 < r) :
    (generate_grid_edges w h c r).2 = linspaceInt h r := by
  unfold generate_grid_edges
  rw [set_eq_self_of_getElem? (linspaceInt h r) 0 0 (by simpa using linspaceInt_getElem? h r 0 (by omega)),
    set_eq_self_of_getElem? (linspaceInt h r) r h
      (by rw [linspaceInt_getElem? h r r (by omega), Nat.mul_div_cancel _ hr])]

lemma linspaceInt_sorted (w n : ℕ) : (linspaceInt w n).Sorted (· ≤ ·) := by
  unfold linspaceInt
  rw [List.Sorted, List.pairwise_map]
  exact (List.pairwise_lt_range (n + 1)).imp
    (fun hab => Nat.div_le_div_right (Nat.mul_le_mul_left w (le_of_lt hab)))

lemma linspaceInt_head? (w n : ℕ) : (linspaceInt w n).head? = some 0 := by
  simp [linspaceInt, List.range_succ_eq_map]

lemma linspaceInt_getLast? (w n : ℕ) (hn : 0 < n) :
    (linspaceInt w n).getLast? = some w := by
  rw [List.getLast?_eq_getElem?, linspaceInt_length, Nat.add_sub_cancel,
    linspaceInt_getElem? w n n (by omega), Nat.mul_div_cancel _ hn]

/--
Claim C4: for positive `cols` (resp. `rows`) and any `width` (resp.
`height`), `generate_grid_edges` returns an edge sequence with exactly
`cols+1` entries, non-decreasing, whose first entry is exactly `0` and
whose last entry is exactly `width`; likewise for the row edges.
-/
theorem C4_edge_coverage (width height cols rows : ℕ) (hc : 0 < cols) (hr : 0 < rows) :
    ((generate_grid_edges width height cols rows).1.length = cols + 1 ∧
      (generate_grid_edges width height cols rows).1.Sorted (· ≤ ·) ∧
      (generate_grid_edges width height cols rows).1.head? = some 0 ∧
      (generate_grid_edges width height cols rows).1.getLast? = some width) ∧
    ((generate_grid_edges width height cols rows).2.length = rows + 1 ∧
      (generate_grid_edges width height cols rows).2.Sorted (· ≤ ·) ∧
      (generate_grid_edges width height cols rows).2.head? = some 0 ∧
      (generate_grid_edges width height cols rows).2.getLast? = some height) := by
  rw [generate_grid_edges_fst width height cols rows hc,
    generate_grid_edges_snd width height cols rows hr]
  exact ⟨⟨linspaceInt_length _ _, linspaceInt_sorted _ _, linspaceInt_head? _ _,
      linspaceInt_getLast? _ _ hc⟩,
    ⟨linspaceInt_length _ _, linspaceInt_sorted _ _, linspaceInt_head? _ _,
      linspaceInt_getLast? _ _ hr⟩⟩

/-- Witness for C4 at `width = 13`, `height = 5`, `cols = 4`, `rows = 2`. -/
theorem C4_edge_coverage_witness :
    (0 < 4 ∧ 0 < 2) ∧
      ((generate_grid_edges 13 5 4 2).1.length = 4 + 1 ∧
        (generate_grid_edges 13 5 4 2).1.Sorted (· ≤ ·) ∧
        (generate_grid_edges 13 5 4 2).1.head? = some 0 ∧
        (generate_grid_edges 13 5 4 2).1.getLast? = some 13) ∧
      ((generate_grid_edges 13 5 4 2).2.length = 2 + 1 ∧
        (generate_grid_edges 13 5 4 2).2.Sorted (· ≤ ·) ∧
        (generate_grid_edges 13 5 4 2).2.head? = some 0 ∧
        (generate_grid_edges 13 5 4 2).2.getLast? = some 5) :=
  ⟨⟨by decide, by decide⟩,
    (C4_edge_coverage 13 5 4 2 (by decide) (by decide)).1,
    (C4_edge_coverage 13 5 4 2 (by decide) (by decide)).2⟩

/-! ## Claim C2: per-column bit packing and token rendering -/

lemma getD_map_range {β : Type} (f : ℕ → β) (n c : ℕ) (d : β) (h : c < n) :
    (((List.range n).map f).getD c d) = f c := by
  rw [List.getD_eq_getElem?_getD, List.getElem?_map, List.getElem?_range h]
  rfl

lemma columnByte_succ (m : List (List ℕ)) (n c : ℕ) :
    columnByte m (n + 1) c =
      if matrixEntry m n c ≠ 0 then columnByte m n c ||| (1 <<< (7 - n))
      else columnByte m n c := by
  unfold columnByte
  rw [List.range_succ, List.foldl_append]
  rfl

lemma columnByte_lt (m : List (List ℕ)) (rows c : ℕ) :
    columnByte m rows c < 256 := by
  induction rows with
  | zero => simp [columnByte]
  | succ n ih =>
    rw [columnByte_succ]
    have h2 : (1 <<< (7 - n) : ℕ) < 256 := by
      rw [Nat.shiftLeft_eq, one_mul]
      calc (2 : ℕ) ^ (7 - n) < 2 ^ 8 := Nat.pow_lt_pow_right (by omega) (by omega)
        _ = 256 := by norm_num
    split
    · have h256 : (256 : ℕ) = 2 ^ 8 := by norm_num
      rw [h256] at ih h2 ⊢
      exact Nat.or_lt_two_pow ih h2
    · exact ih

lemma columnByte_testBit (m : List (List ℕ)) (rows c k : ℕ) :
    (columnByte m rows c).testBit k = true ↔
      ∃ r, r < rows ∧ 7 - r = k ∧ matrixEntry m r c ≠ 0 := by
  induction rows with
  | zero =>
    simp [columnByte, Nat.zero_testBit]
  | succ n ih =>
    rw [columnByte_succ]
    by_cases h : matrixEntry m n c ≠ 0
    · rw [if_pos h]
      rw [Nat.testBit_or, Nat.shiftLeft_eq, one_mul, Nat.testBit_two_pow]
      constructor
      · intro hor
        rcases Bool.or_eq_true_iff.mp hor with hv | hp
        · obtain ⟨r, hr, hk, he⟩ := ih.mp hv
          exact ⟨r, by omega, hk, he⟩
        · exact ⟨n, by omega, of_decide_eq_true hp, h⟩
      · rintro ⟨r, hr, hk, he⟩
        rcases Nat.lt_succ_iff_lt_or_eq.mp hr with hr' | rfl
        · exact Bool.or_eq_true_iff.mpr (Or.inl (ih.mpr ⟨r, hr', hk, he⟩))
        · exact Bool.or_eq_true_iff.mpr (Or.inr (decide_eq_true hk))
    · rw [if_neg h]
      rw [ih]
      constructor
      · rintro ⟨r, hr, hk, he⟩
        exact ⟨r, by omega, hk, he⟩
      · rintro ⟨r, hr, hk, he⟩
        rcases Nat.lt_succ_iff_lt_or_eq.mp hr with hr' | rfl
        · exact ⟨r, hr', hk, he⟩
        · exact absurd he h

/--
For every byte value below 256, Python's `"{v:08b}"` digit string is
exactly the 8 characters read off the bits from bit 7 down to bit 0.
-/
lemma pad8_binChars_eq : ∀ v, v < 256 →
    pad8 (binChars v) =
      (List.range 8).map (fun i => if Nat.testBit v (7 - i) then '1' else '0') := by
  decide


lemma matrixEntry_of_le (m : List (List ℕ)) (r c : ℕ) (h : m.length ≤ r) :
    matrixEntry m r c = 0 := by
  unfold matrixEntry
  rw [List.getD_eq_getElem?_getD m r, List.getElem?_eq_none h]
  rfl

lemma matrixEntry_binary (m : List (List ℕ))
    (hbin : ∀ row ∈ m, ∀ v ∈ row, v = 0 ∨ v = 1) (r c : ℕ) :
    matrixEntry m r c = 0 ∨ matrixEntry m r c = 1 := by
  unfold matrixEntry
  by_cases hr : r < m.length
  · have hrow : m.getD r [] ∈ m := by
      rw [List.getD_eq_getElem m [] hr]
      exact List.getElem_mem hr
    by_cases hc : c < (m.getD r []).length
    · have hv : (m.getD r []).getD c 0 ∈ m.getD r [] := by
        rw [List.getD_eq_getElem _ 0 hc]
        exact List.getElem_mem hc
      exact hbin _ hrow _ hv
    · left
      rw [List.getD_eq_getElem?_getD, List.getElem?_eq_none (by omega)]
      rfl
  · left
    rw [List.getD_eq_getElem?_getD m r, List.getElem?_eq_none (by omega)]
    rfl

/--
Claim C2: for a black matrix with at most 8 rows and 0/1 entries, the
encoder emits, for each column `c` in increasing column order, a single
byte in which matrix row `r` contributes bit position `7 - r` (row 0 is
the most significant bit and the unused low bits stay 0), rendered as
the token `"0b"` followed by exactly 8 binary digits followed by a
comma; a column in which only row 0 is set yields `"0b10000000,"`.
-/
theorem C2_bit_packing (m : List (List ℕ)) (hrows : m.length ≤ 8)
    (hbin : ∀ row ∈ m, ∀ v ∈ row, v = 0 ∨ v = 1) :
    ∀ c, c < (m.getD 0 []).length →
      (exportLines m).getD c "" = byteToken (columnByte m m.length c) ∧
      (∀ r, r < m.length →
        ((columnByte m m.length c).testBit (7 - r) = true ↔ matrixEntry m r c = 1)) ∧
      (∀ k, k < 8 - m.length → (columnByte m m.length c).testBit k = false) ∧
      (∃ ds : List Char, ds.length = 8 ∧ (∀ ch ∈ ds, ch = '0' ∨ ch = '1') ∧
        byteToken (columnByte m m.length c) = "0b" ++ String.mk ds ++ ",") ∧
      ((matrixEntry m 0 c = 1 ∧ ∀ r, 1 ≤ r → matrixEntry m r c = 0) →
        byteToken (columnByte m m.length c) = "0b10000000,") := by
  intro c hc
  refine ⟨?_, ?_, ?_, ?_, ?_⟩
  · exact getD_map_range _ _ _ _ hc
  · intro r hr
    rw [columnByte_testBit]
    constructor
    · rintro ⟨r', hr', hk, he⟩
      have hrr : r' = r := by omega
      subst hrr
      rcases matrixEntry_binary m hbin r' c with h0 | h1
      · exact absurd h0 he
      · exact h1
    · intro h1
      refine ⟨r, hr, rfl, ?_⟩
      rw [h1]
      omega
  · intro k hk
    rcases Bool.eq_false_or_eq_true ((columnByte m m.length c).testBit k) with ht | hf
    · obtain ⟨r, hr, hbit, _⟩ := (columnByte_testBit m m.length c k).mp ht
      omega
    · exact hf
  · refine ⟨pad8 (binChars (columnByte m m.length c)), ?_, ?_, rfl⟩
    · rw [pad8_binChars_eq _ (columnByte_lt m m.length c)]
      simp
    · intro ch hch
      rw [pad8_binChars_eq _ (columnByte_lt m m.length c)] at hch
      obtain ⟨i, _, hi⟩ := List.mem_map.mp hch
      split at hi
      · exact Or.inr hi.symm
      · exact Or.inl hi.symm
  · rintro ⟨h0, hrest⟩
    have hval : columnByte m m.length c = 128 := by
      apply Nat.eq_of_testBit_eq
      intro k
      have h128 : (128 : ℕ) = 2 ^ 7 := by norm_num
      rw [h128, Nat.testBit_two_pow]
      by_cases h7 : 7 = k
      · subst h7
        rw [decide_eq_true (rfl : (7 : ℕ) = 7)]
        have hm0 : 0 < m.length := by
          by_contra hl
          rw [matrixEntry_of_le m 0 c (by omega)] at h0
          omega
        exact (columnByte_testBit m m.length c 7).mpr
          ⟨0, hm0, by omega, by rw [h0]; omega⟩
      · rw [decide_eq_false h7]
        rcases Bool.eq_false_or_eq_true ((columnByte m m.length c).testBit k) with ht | hf
        · obtain ⟨r, hr, hk, he⟩ := (columnByte_testBit m m.length c k).mp ht
          have hr0 : r = 0 := by
            by_contra hr'
            exact he (hrest r (by omega))
          subst hr0
          exact absurd (by omega : (7 : ℕ) = k) h7
        · exact hf
    rw [hval]
    rfl

/--
Witness for C2 on the 8-row, 1-column matrix whose only set cell is
row 0, column 0; the emitted token for column 0 is `"0b10000000,"`.
-/
theorem C2_bit_packing_witness :
    ([[1],[0],[0],[0],[0],[0],[0],[0]] : List (List ℕ)).length ≤ 8 ∧
      (exportLines [[1],[0],[0],[0],[0],[0],[0],[0]]).getD 0 "" = "0b10000000," := by
  have h := C2_bit_packing [[1],[0],[0],[0],[0],[0],[0],[0]] (by decide) (by decide)
    0 (by decide)
  refine ⟨by decide, ?_⟩
  rw [h.1]
  refine h.2.2.2.2 ⟨by decide, ?_⟩
  intro r hr
  by_cases h8 : r < 8
  · interval_cases r <;> decide
  · exact matrixEntry_of_le _ r 0
      (by simp only [List.length_cons, List.length_nil]; omega)

/-! ## Claim C3: grouping with separator lines -/

lemma groupLines_of_le (l : List String) (h : l.length ≤ 8) : groupLines l = l := by
  match l with
  | [] => rfl
  | [a1] => rfl
  | [a1, a2] => rfl
  | [a1, a2, a3] => rfl
  | [a1, a2, a3, a4] => rfl
  | [a1, a2, a3, a4, a5] => rfl
  | [a1, a2, a3, a4, a5, a6] => rfl
  | [a1, a2, a3, a4, a5, a6, a7] => rfl
  | [a1, a2, a3, a4, a5, a6, a7, a8] => rfl
  | a1 :: a2 :: a3 :: a4 :: a5 :: a6 :: a7 :: a8 :: b :: rest =>
    simp only [List.length_cons] at h
    omega

lemma groupLines_of_gt (l : List String) (h : 8 < l.length) :
    groupLines l = l.take 8 ++ "," :: groupLines (l.drop 8) := by
  match l with
  | [] => simp at h
  | [a1] => simp at h
  | [a1, a2] => simp at h
  | [a1, a2, a3] => simp at h
  | [a1, a2, a3, a4] => simp at h
  | [a1, a2, a3, a4, a5] => simp at h
  | [a1, a2, a3, a4, a5, a6] => simp at h
  | [a1, a2, a3, a4, a5, a6, a7] => simp at h
  | [a1, a2, a3, a4, a5, a6, a7, a8] => simp at h
  | a1 :: a2 :: a3 :: a4 :: a5 :: a6 :: a7 :: a8 :: b :: rest => rfl

lemma chunks8_of_le (l : List String) (hne : l ≠ []) (h : l.length ≤ 8) :
    chunks8 l = [l] := by
  match l with
  | [] => exact absurd rfl hne
  | [a1] => rfl
  | [a1, a2] => rfl
  | [a1, a2, a3] => rfl
  | [a1, a2, a3, a4] => rfl
  | [a1, a2, a3, a4, a5] => rfl
  | [a1, a2, a3, a4, a5, a6] => rfl
  | [a1, a2, a3, a4, a5, a6, a7] => rfl
  | [a1, a2, a3, a4, a5, a6, a7, a8] => rfl
  | a1 :: a2 :: a3 :: a4 :: a5 :: a6 :: a7 :: a8 :: b :: rest =>
    simp only [List.length_cons] at h
    omega

lemma chunks8_of_gt (l : List String) (h : 8 < l.length) :
    chunks8 l = l.take 8 :: chunks8 (l.drop 8) := by
  match l with
  | [] => simp at h
  | [a1] => simp at h
  | [a1, a2] => simp at h
  | [a1, a2, a3] => simp at h
  | [a1, a2, a3, a4] => simp at h
  | [a1, a2, a3, a4, a5] => simp at h
  | [a1, a2, a3, a4, a5, a6] => simp at h
  | [a1, a2, a3, a4, a5, a6, a7] => simp at h
  | [a1, a2, a3, a4, a5, a6, a7, a8] => simp at h
  | a1 :: a2 :: a3 :: a4 :: a5 :: a6 :: a7 :: a8 :: b :: rest => rfl

lemma sepJoin_cons_cons (a g : List String) (gs : List (List String)) :
    sepJoin (a :: g :: gs) = a ++ "," :: sepJoin (g :: gs) := rfl

lemma chunks8_ne_nil (l : List String) (h : l ≠ []) : chunks8 l ≠ [] := by
  by_cases h8 : l.length ≤ 8
  · rw [chunks8_of_le l h h8]
    simp
  · push_neg at h8
    rw [chunks8_of_gt l h8]
    simp

lemma groupLines_eq_sepJoin (l : List String) :
    groupLines l = sepJoin (chunks8 l) := by
  have H : ∀ n (l : List String), l.length ≤ n → groupLines l = sepJoin (chunks8 l) := by
    intro n
    induction n with
    | zero =>
      intro l hl
      have : l = [] := List.length_eq_zero.mp (by omega)
      subst this
      rfl
    | succ n ih =>
      intro l hl
      by_cases hnil : l = []
      · subst hnil
        rfl
      · by_cases h8 : l.length ≤ 8
        · rw [groupLines_of_le l h8, chunks8_of_le l hnil h8]
          rfl
        · push_neg at h8
          rw [groupLines_of_gt l h8, chunks8_of_gt l h8]
          have hdne : l.drop 8 ≠ [] :=
            List.ne_nil_of_length_pos (by rw [List.length_drop]; omega)
          obtain ⟨g, gs, hg⟩ := List.exists_cons_of_ne_nil (chunks8_ne_nil _ hdne)
          rw [hg, sepJoin_cons_cons, ← hg,
            ← ih (l.drop 8) (by rw [List.length_drop]; omega)]
  exact H l.length l le_rfl

lemma groupLines_getLast? (l : List String) (h : l ≠ []) :
    (groupLines l).getLast? = l.getLast? := by
  have H : ∀ n (l : List String), l ≠ [] → l.length ≤ n →
      (groupLines l).getLast? = l.getLast? := by
    intro n
    induction n with
    | zero =>
      intro l hne hl
      exact absurd (List.length_eq_zero.mp (by omega)) hne
    | succ n ih =>
      intro l hne hl
      by_cases h8 : l.length ≤ 8
      · rw [groupLines_of_le l h8]
      · push_neg at h8
        have hdne : l.drop 8 ≠ [] :=
          List.ne_nil_of_length_pos (by rw [List.length_drop]; omega)
        have hgne : groupLines (l.drop 8) ≠ [] := by
          by_cases hd8 : (l.drop 8).length ≤ 8
          · rw [groupLines_of_le _ hd8]
            exact hdne
          · push_neg at hd8
            rw [groupLines_of_gt _ hd8]
            simp
        rw [groupLines_of_gt l h8,
          List.getLast?_append_of_ne_nil _ (by simp : ("," :: groupLines (l.drop 8)) ≠ []),
          show ("," :: groupLines (l.drop 8)) = [","] ++ groupLines (l.drop 8) from rfl,
          List.getLast?_append_of_ne_nil _ hgne,
          ih (l.drop 8) hdne (by rw [List.length_drop]; omega),
          ← List.getLast?_append_of_ne_nil (l.take 8) hdne,
          List.take_append_drop]
  exact H l.length l h le_rfl

lemma byteToken_ne_comma (v : ℕ) : byteToken v ≠ "," := by
  intro habs
  have hlen := congrArg String.length habs
  rw [byteToken] at hlen
  simp only [String.length_append] at hlen
  have h8 : 8 ≤ (String.mk (pad8 (binChars v))).length := by
    show 8 ≤ (pad8 (binChars v)).length
    rw [pad8, List.length_append, List.length_replicate]
    omega
  rw [show ("0b" : String).length = 2 from rfl,
    show ("," : String).length = 1 from rfl] at hlen
  omega

/--
Claim C3: the encoder emits one token per column in column order and
inserts one separator line `","` after every run of 8 consecutive
column tokens, except after the final group: the grouped output is the
8-chunks of the token list joined by single `","` lines; for 10
columns the output is 8 tokens, one `","` line, then the remaining 2
tokens; and the output never ends with a separator line (in particular
when the column count is a multiple of 8 there is no trailing
separator after the last group).
-/
theorem C3_group_separators (m : List (List ℕ)) :
    export_black_matrix_as_binary_bytes m = sepJoin (chunks8 (exportLines m)) ∧
    (exportLines m).length = (m.getD 0 []).length ∧
    ((m.getD 0 []).length = 10 →
      export_black_matrix_as_binary_bytes m =
        (exportLines m).take 8 ++ "," :: (exportLines m).drop 8) ∧
    (0 < (m.getD 0 []).length →
      (export_black_matrix_as_binary_bytes m).getLast? = (exportLines m).getLast? ∧
      ∀ s, (exportLines m).getLast? = some s → s ≠ ",") := by
  have hlen : (exportLines m).length = (m.getD 0 []).length := by
    simp [exportLines]
  refine ⟨groupLines_eq_sepJoin _, hlen, ?_, ?_⟩
  · intro h10
    unfold export_black_matrix_as_binary_bytes
    rw [groupLines_of_gt _ (by omega), groupLines_of_le _ (by rw [List.length_drop]; omega)]
  · intro hpos
    have hne : exportLines m ≠ [] := List.ne_nil_of_length_pos (by omega)
    refine ⟨groupLines_getLast? _ hne, ?_⟩
    intro s hs
    have hmem : s ∈ exportLines m := List.mem_of_getLast?_eq_some hs
    unfold exportLines at hmem
    obtain ⟨c, _, hc⟩ := List.mem_map.mp hmem
    rw [← hc]
    exact byteToken_ne_comma _

/--
Witness for C3 on a 1-row matrix with 10 columns: the export is 8
tokens, one `","` line, then 2 tokens.
-/
theorem C3_group_separators_witness :
    (([[1,0,1,0,1,0,1,0,1,1]] : List (List ℕ)).getD 0 []).length = 10 ∧
      export_black_matrix_as_binary_bytes [[1,0,1,0,1,0,1,0,1,1]] =
        (exportLines [[1,0,1,0,1,0,1,0,1,1]]).take 8 ++
          "," :: (exportLines [[1,0,1,0,1,0,1,0,1,1]]).drop 8 :=
  ⟨by decide, (C3_group_separators [[1,0,1,0,1,0,1,0,1,1]]).2.2.1 (by decide)⟩

/-! ## Marker corner resolution (read.py, OMRReader.find_marker_corners) -/

/-- A 2-D point with exact coordinates (modelling float coordinates). -/
abbrev Point := ℚ × ℚ

/-- A detected marker quad `corners[i][0]`: its list of corner points. -/
abbrev Quad := List Point

/-- The centroid of a quad: `np.mean(marker_corners, axis=0)`. -/
def centroid (q : Quad) : Point :=
  (((q.map Prod.fst).sum / (q.length : ℚ)), ((q.map Prod.snd).sum / (q.length : ℚ)))

/--
One update of the Python dict `marker_positions[marker_id] = center`:
replace the binding if the key is present (preserving its position),
otherwise append the new binding at the end (dict insertion order).
-/
def upsert (ps : List (ℤ × Point)) (k : ℤ) (v : Point) : List (ℤ × Point) :=
  match ps with
  | [] => [(k, v)]
  | (k0, v0) :: rest => if k0 = k then (k0, v) :: rest else (k0, v0) :: upsert rest k v

/--
One iteration of the loop
`for i, marker_id in enumerate(ids.flatten()): if marker_id in [0,1,2,3]: ...`:
non-canonical ids are skipped, canonical ids store the centroid of the
paired quad.
-/
def insertMarker (ps : List (ℤ × Point)) (p : ℤ × Quad) : List (ℤ × Point) :=
  if p.1 = 0 ∨ p.1 = 1 ∨ p.1 = 2 ∨ p.1 = 3 then upsert ps p.1 (centroid p.2) else ps

/-- The `marker_positions` dict after the whole loop. -/
def buildPositions (pairs : List (ℤ × Quad)) : List (ℤ × Point) :=
  pairs.foldl insertMarker []

/--
Models `OMRReader.find_marker_corners(corners, ids)` from read.py: `None` when
`ids is None` or fewer than 4 ids were detected, `None` when the
resulting positions dict does not have exactly 4 entries, otherwise the
4 centroids in canonical order (TL, TR, BR, BL) = ids (0, 1, 2, 3).
-/
def find_marker_corners (corners : List Quad) (ids : Option (List ℤ)) :
    Option (List Point) :=
  match ids with
  | none => none
  | some l =>
    if l.length < 4 then none
    else
      let ps := buildPositions (l.zip corners)
      if ps.length ≠ 4 then none
      else some [((ps.lookup 0).getD (0, 0)), ((ps.lookup 1).getD (0, 0)),
        ((ps.lookup 2).getD (0, 0)), ((ps.lookup 3).getD (0, 0))]

/-! ## Claim C1: which id multisets the corner resolver accepts -/

lemma upsert_keys (ps : List (ℤ × Point)) (k : ℤ) (v : Point) :
    (upsert ps k v).map Prod.fst =
      if k ∈ ps.map Prod.fst then ps.map Prod.fst else ps.map Prod.fst ++ [k] := by
  induction ps with
  | nil => simp [upsert]
  | cons p rest ih =>
    obtain ⟨k0, v0⟩ := p
    by_cases hk : k0 = k
    · subst hk
      simp [upsert]
    · rw [upsert, if_neg hk]
      by_cases hmem : k ∈ rest.map Prod.fst
      · simp only [List.map_cons, ih, if_pos hmem]
        rw [if_pos (by simp [hmem])]
      · simp only [List.map_cons, ih, if_neg hmem]
        rw [if_neg (by
          simp only [List.mem_cons]
          rintro (h | hm)
          · exact hk h.symm
          · exact hmem hm)]
        simp

lemma mem_upsert_keys (ps : List (ℤ × Point)) (k0 k : ℤ) (v : Point) :
    k ∈ (upsert ps k0 v).map Prod.fst ↔ k ∈ ps.map Prod.fst ∨ k = k0 := by
  rw [upsert_keys]
  by_cases hmem : k0 ∈ ps.map Prod.fst
  · rw [if_pos hmem]
    constructor
    · exact Or.inl
    · rintro (h | rfl)
      · exact h
      · exact hmem
  · rw [if_neg hmem]
    simp

lemma upsert_keys_nodup (ps : List (ℤ × Point)) (k : ℤ) (v : Point)
    (h : (ps.map Prod.fst).Nodup) : ((upsert ps k v).map Prod.fst).Nodup := by
  rw [upsert_keys]
  by_cases hmem : k ∈ ps.map Prod.fst
  · rw [if_pos hmem]
    exact h
  · rw [if_neg hmem]
    rw [List.nodup_append]
    exact ⟨h, List.nodup_singleton k, by
      intro a ha hha
      rw [List.mem_singleton] at hha
      subst hha
      exact hmem ha⟩

lemma mem_keys_foldl (pairs : List (ℤ × Quad)) (acc : List (ℤ × Point)) (k : ℤ) :
    k ∈ ((pairs.foldl insertMarker acc).map Prod.fst) ↔
      k ∈ acc.map Prod.fst ∨
        ((k = 0 ∨ k = 1 ∨ k = 2 ∨ k = 3) ∧ k ∈ pairs.map Prod.fst) := by
  induction pairs generalizing acc with
  | nil => simp
  | cons p rest ih =>
    rw [List.foldl_cons, ih]
    unfold insertMarker
    by_cases hcan : p.1 = 0 ∨ p.1 = 1 ∨ p.1 = 2 ∨ p.1 = 3
    · rw [if_pos hcan, mem_upsert_keys]
      simp only [List.map_cons, List.mem_cons]
      constructor
      · rintro ((h | rfl) | h)
        · exact Or.inl h
        · exact Or.inr ⟨hcan, Or.inl rfl⟩
        · exact Or.inr ⟨h.1, Or.inr h.2⟩
      · rintro (h | ⟨hk, (rfl | h)⟩)
        · exact Or.inl (Or.inl h)
        · exact Or.inl (Or.inr rfl)
        · exact Or.inr ⟨hk, h⟩
    · rw [if_neg hcan]
      simp only [List.map_cons, List.mem_cons]
      constructor
      · rintro (h | h)
        · exact Or.inl h
        · exact Or.inr ⟨h.1, Or.inr h.2⟩
      · rintro (h | ⟨hk, (rfl | h)⟩)
        · exact Or.inl h
        · exact absurd hk hcan
        · exact Or.inr ⟨hk, h⟩

lemma keys_nodup_foldl (pairs : List (ℤ × Quad)) (acc : List (ℤ × Point))
    (h : (acc.map Prod.fst).Nodup) :
    ((pairs.foldl insertMarker acc).map Prod.fst).Nodup := by
  induction pairs generalizing acc with
  | nil => exact h
  | cons p rest ih =>
    rw [List.foldl_cons]
    apply ih
    unfold insertMarker
    by_cases hcan : p.1 = 0 ∨ p.1 = 1 ∨ p.1 = 2 ∨ p.1 = 3
    · rw [if_pos hcan]
      exact upsert_keys_nodup _ _ _ h
    · rw [if_neg hcan]
      exact h

lemma keys_canonical_foldl (pairs : List (ℤ × Quad)) (acc : List (ℤ × Point))
    (h : ∀ k ∈ acc.map Prod.fst, k = 0 ∨ k = 1 ∨ k = 2 ∨ k = 3) :
    ∀ k ∈ ((pairs.foldl insertMarker acc).map Prod.fst),
      k = 0 ∨ k = 1 ∨ k = 2 ∨ k = 3 := by
  intro k hk
  rw [mem_keys_foldl] at hk
  rcases hk with hk | hk
  · exact h k hk
  · exact hk.1

lemma buildPositions_length_four_iff (pairs : List (ℤ × Quad)) :
    (buildPositions pairs).length = 4 ↔
      ((0:ℤ) ∈ pairs.map Prod.fst ∧ (1:ℤ) ∈ pairs.map Prod.fst ∧
        (2:ℤ) ∈ pairs.map Prod.fst ∧ (3:ℤ) ∈ pairs.map Prod.fst) := by
  have hlen : (buildPositions pairs).length =
      ((buildPositions pairs).map Prod.fst).length := (List.length_map _ _).symm
  have hnd : ((buildPositions pairs).map Prod.fst).Nodup :=
    keys_nodup_foldl pairs [] (by simp)
  have hsub : ((buildPositions pairs).map Prod.fst).toFinset ⊆ ({0, 1, 2, 3} : Finset ℤ) := by
    intro k hkf
    rw [List.mem_toFinset] at hkf
    have hc := keys_canonical_foldl pairs [] (by simp) k hkf
    simp only [Finset.mem_insert, Finset.mem_singleton]
    tauto
  have hmem : ∀ k : ℤ, k ∈ (buildPositions pairs).map Prod.fst ↔
      (k = 0 ∨ k = 1 ∨ k = 2 ∨ k = 3) ∧ k ∈ pairs.map Prod.fst := by
    intro k
    unfold buildPositions
    rw [mem_keys_foldl]
    simp
  constructor
  · intro h4
    have hcard : ((buildPositions pairs).map Prod.fst).toFinset.card = 4 := by
      rw [List.toFinset_card_of_nodup hnd]
      omega
    have hequal : ((buildPositions pairs).map Prod.fst).toFinset = ({0, 1, 2, 3} : Finset ℤ) :=
      Finset.eq_of_subset_of_card_le hsub (by rw [hcard]; decide)
    have hk : ∀ k : ℤ, k ∈ ({0, 1, 2, 3} : Finset ℤ) → k ∈ pairs.map Prod.fst := by
      intro k hkf
      rw [← hequal, List.mem_toFinset, hmem] at hkf
      exact hkf.2
    exact ⟨hk 0 (by decide), hk 1 (by decide), hk 2 (by decide), hk 3 (by decide)⟩
  · rintro ⟨h0, h1, h2, h3⟩
    have hsup : ({0, 1, 2, 3} : Finset ℤ) ⊆ ((buildPositions pairs).map Prod.fst).toFinset := by
      intro k hkf
      rw [List.mem_toFinset, hmem]
      simp only [Finset.mem_insert, Finset.mem_singleton] at hkf
      refine ⟨hkf, ?_⟩
      rcases hkf with rfl | rfl | rfl | rfl
      · exact h0
      · exact h1
      · exact h2
      · exact h3
    have heq : ((buildPositions pairs).map Prod.fst).toFinset = ({0, 1, 2, 3} : Finset ℤ) :=
      Finset.Subset.antisymm hsub hsup
    have hcard := congrArg Finset.card heq
    rw [List.toFinset_card_of_nodup hnd] at hcard
    rw [hlen, hcard]
    decide

/--
Claim C1, amended: `find_marker_corners` succeeds iff `ids` is present,
at least 4 ids were detected, and each canonical id 0, 1, 2, 3 occurs
among the ids; duplicate canonical ids are tolerated (the last
occurrence wins) and ids outside `{0,1,2,3}` are ignored rather than
causing failure.  (`l.length ≤ corners.length` reflects that the
detector returns one corner quad per id.)
-/
theorem C1_corner_requirement_amended (cs : List Quad) (l : List ℤ)
    (h : l.length ≤ cs.length) :
    ((find_marker_corners cs (some l)).isSome = true ↔
      (4 ≤ l.length ∧ (0:ℤ) ∈ l ∧ (1:ℤ) ∈ l ∧ (2:ℤ) ∈ l ∧ (3:ℤ) ∈ l)) ∧
    find_marker_corners cs none = none := by
  refine ⟨?_, rfl⟩
  show ((if l.length < 4 then none
    else if (buildPositions (l.zip cs)).length ≠ 4 then none
    else some [(((buildPositions (l.zip cs)).lookup 0).getD (0, 0)),
      (((buildPositions (l.zip cs)).lookup 1).getD (0, 0)),
      (((buildPositions (l.zip cs)).lookup 2).getD (0, 0)),
      (((buildPositions (l.zip cs)).lookup 3).getD (0, 0))] :
      Option (List Point))).isSome = true ↔ _
  have hfst : (l.zip cs).map Prod.fst = l := List.map_fst_zip l cs h
  by_cases h4 : l.length < 4
  · rw [if_pos h4]
    simp only [Option.isSome_none, Bool.false_eq_true, false_iff]
    intro hc
    exact absurd hc.1 (by omega)
  · rw [if_neg h4]
    by_cases hps : (buildPositions (l.zip cs)).length = 4
    · rw [if_neg (not_not_intro hps)]
      simp only [Option.isSome_some, true_iff]
      obtain ⟨h0, h1, h2, h3⟩ := (buildPositions_length_four_iff (l.zip cs)).mp hps
      rw [hfst] at h0 h1 h2 h3
      exact ⟨by omega, h0, h1, h2, h3⟩
    · rw [if_pos hps]
      simp only [Option.isSome_none, Bool.false_eq_true, false_iff]
      rintro ⟨hlen4, h0, h1, h2, h3⟩
      apply hps
      rw [buildPositions_length_four_iff, hfst]
      exact ⟨h0, h1, h2, h3⟩

/--
Witness for the amended C1 at ids `[0, 1, 2, 3]` with four unit quads:
resolution succeeds.
-/
theorem C1_corner_requirement_amended_witness :
    ([(0:ℤ), 1, 2, 3].length ≤ (List.replicate 4 [((0:ℚ), (0:ℚ))]).length) ∧
      ((find_marker_corners (List.replicate 4 [((0:ℚ), (0:ℚ))])
          (some [0, 1, 2, 3])).isSome = true ↔
        (4 ≤ [(0:ℤ), 1, 2, 3].length ∧ (0:ℤ) ∈ [(0:ℤ), 1, 2, 3] ∧
          (1:ℤ) ∈ [(0:ℤ), 1, 2, 3] ∧ (2:ℤ) ∈ [(0:ℤ), 1, 2, 3] ∧
          (3:ℤ) ∈ [(0:ℤ), 1, 2, 3])) :=
  ⟨by decide,
    (C1_corner_requirement_amended (List.replicate 4 [((0:ℚ), (0:ℚ))])
      [0, 1, 2, 3] (by decide)).1⟩

/--
Counterexample to claim C1 as stated: the claim requires failure
(`None`) whenever the ids contain a duplicate canonical id or an id
outside `{0,1,2,3}`, but the code succeeds on ids `[0,0,1,2,3]`
(duplicate canonical id) and on ids `[0,1,2,3,4]` (extra out-of-set
id).
-/
theorem C1_corner_requirement_counterexample :
    (find_marker_corners (List.replicate 5 [((0:ℚ), (0:ℚ))])
        (some [0, 0, 1, 2, 3])).isSome = true ∧
      (find_marker_corners (List.replicate 5 [((0:ℚ), (0:ℚ))])
        (some [0, 1, 2, 3, 4])).isSome = true := by
  decide

/-! ## Grid sampling (mark_grid.py, compute_black_matrix) -/

/-- A grayscale image: a list of pixel rows, intensities in `0..255`. -/
abbrev GrayImage := List (List ℕ)

/-- A BGR colour image: a list of pixel rows of `(b, g, r)` channels. -/
abbrev BGRImage := List (List (ℕ × ℕ × ℕ))

/--
One pixel of `cv2.cvtColor(image, cv2.COLOR_BGR2GRAY)`: OpenCV's
fixed-point formula `(B*1868 + G*9617 + R*4899 + 2^13) >> 14`
(the 14-bit fixed-point rendering of `0.114B + 0.587G + 0.299R`).
-/
def bgrToGray (p : ℕ × ℕ × ℕ) : ℕ :=
  (1868 * p.1 + 9617 * p.2.1 + 4899 * p.2.2 + 8192) / 16384

/-- Models `cv2.cvtColor(image, cv2.COLOR_BGR2GRAY)` applied pixelwise. -/
def cvtColorGray (image : BGRImage) : GrayImage :=
  image.map (List.map bgrToGray)

/--
The Python slice `l[lo:hi]` for `0 ≤ lo` and `0 ≤ hi` (the only case
the sampler produces; an empty list when `hi ≤ lo`).
-/
def sliceRange {α : Type} (lo hi : ℤ) (l : List α) : List α :=
  (l.drop lo.toNat).take (hi - lo).toNat

/--
The cell block `grayscale[y1:y2+1, x1:x2+1]` of `compute_black_matrix`,
with the source's clamps `x1 = max(0, x1)`, `x2 = min(width-1, x2)`
(and likewise for y), where `y1 = y_edges[r]`, `y2 = y_edges[r+1]-1`,
`x1 = x_edges[c]`, `x2 = x_edges[c+1]-1`.
-/
def cellROI (gray : GrayImage) (width height : ℕ) (xs ys : List ℕ) (r c : ℕ) :
    GrayImage :=
  let y1 : ℤ := max 0 ((ys.getD r 0 : ℤ))
  let y2 : ℤ := min ((height : ℤ) - 1) ((ys.getD (r + 1) 0 : ℤ) - 1)
  let x1 : ℤ := max 0 ((xs.getD c 0 : ℤ))
  let x2 : ℤ := min ((width : ℤ) - 1) ((xs.getD (c + 1) 0 : ℤ) - 1)
  (sliceRange y1 (y2 + 1) gray).map (fun row => sliceRange x1 (x2 + 1) row)

/-- The number of pixels in a block, `roi.size`. -/
def roiSize (roi : GrayImage) : ℕ :=
  (roi.map List.length).sum

/--
Models `cv2.threshold(roi, t, 255, cv2.THRESH_BINARY)`: each pixel becomes
255 if strictly above the threshold, else 0.
-/
def threshBinary (t : ℕ) (roi : GrayImage) : GrayImage :=
  roi.map (List.map (fun p => if p > t then 255 else 0))

/-- The intensity histogram bin `i` of a block. -/
def histCount (roi : GrayImage) (i : ℕ) : ℕ :=
  (roi.map (fun row => (row.filter (fun p => p == i)).length)).sum

/-- The constant `FLT_EPSILON` (2⁻²³), as used by OpenCV's Otsu implementation. -/
def fltEpsilon : ℚ := 1 / 8388608

/-- The running state of OpenCV's Otsu scan over the 256 histogram bins. -/
structure OtsuState where
  mu1 : ℚ
  q1 : ℚ
  maxSigma : ℚ
  maxVal : ℕ

/--
One iteration of OpenCV's `getThreshVal_Otsu_8u` loop (float
arithmetic modelled exactly in ℚ): update the class-1 mass and mean,
skip bins leaving a vanishing class, otherwise keep the bin with the
largest between-class variance.
-/
def otsuStep (mu scale : ℚ) (h : ℕ → ℕ) (s : OtsuState) (i : ℕ) : OtsuState :=
  let p_i : ℚ := (h i : ℚ) * scale
  let m1 := s.mu1 * s.q1
  let q1 := s.q1 + p_i
  let q2 : ℚ := 1 - q1
  if min q1 q2 < fltEpsilon ∨ max q1 q2 > 1 - fltEpsilon then
    { s with mu1 := m1, q1 := q1 }
  else
    let m1 := (m1 + (i : ℚ) * p_i) / q1
    let m2 := (mu - q1 * m1) / q2
    let sigma := q1 * q2 * (m1 - m2) * (m1 - m2)
    if sigma > s.maxSigma then ⟨m1, q1, sigma, i⟩
    else { s with mu1 := m1, q1 := q1 }

/--
Models `cv2.threshold(roi, 0, 255, cv2.THRESH_BINARY + cv2.THRESH_OTSU)`'s
threshold selection (OpenCV's `getThreshVal_Otsu_8u`), modelled in
exact rationals: the histogram bin maximizing the between-class
variance.
-/
def otsuThreshold (roi : GrayImage) : ℕ :=
  let total : ℕ := roiSize roi
  let scale : ℚ := 1 / (total : ℚ)
  let mu : ℚ := scale * (((List.range 256).map
    (fun (i : ℕ) => (i : ℚ) * (histCount roi i : ℚ))).sum)
  ((List.range 256).foldl (otsuStep mu scale (histCount roi)) ⟨0, 0, 0, 0⟩).maxVal

/--
The per-cell binarization threshold: the fixed `gray_threshold` when
provided, otherwise the per-cell Otsu threshold.
-/
def chooseThreshold (grayThr : Option ℕ) (roi : GrayImage) : ℕ :=
  match grayThr with
  | some t => t
  | none => otsuThreshold roi

/-- Models `cv2.countNonZero(binary)`. -/
def countNonZero (img : GrayImage) : ℕ :=
  (img.map (fun row => (row.filter (fun p => p != 0)).length)).sum

/--
Models `black_ratio = (total_pixels - countNonZero(binary)) / total_pixels`
from `compute_black_matrix` (float division modelled exactly in ℚ).
-/
def black_ratio_value (binary : GrayImage) : ℚ :=
  ((roiSize binary - countNonZero binary : ℕ) : ℚ) / ((roiSize binary : ℕ) : ℚ)

/--
The body of `compute_black_matrix`'s inner loop for one cell: `none`
when the block has zero area (`continue`, leaving the zero entry),
otherwise the classified bit `1` iff `black_ratio >= black_ratio_threshold`.
-/
def cellBit (roi : GrayImage) (thr : ℚ) (grayThr : Option ℕ) : Option ℕ :=
  if roiSize roi = 0 then none
  else some (if black_ratio_value (threshBinary (chooseThreshold grayThr roi) roi) ≥ thr
    then 1 else 0)

/--
One row of the result of `compute_black_matrix`: the row starts as the
`np.zeros` row and each non-skipped cell is written at its column.
-/
def fillRow (f : ℕ → Option ℕ) (cols : ℕ) : List ℕ :=
  (List.range cols).foldl
    (fun row c =>
      match f c with
      | none => row
      | some v => row.set c v)
    (List.replicate cols 0)

/-- The cell block of cell `(r, c)` of `compute_black_matrix(image, cols, rows, ...)`. -/
def cellROIOf (image : BGRImage) (cols rows r c : ℕ) : GrayImage :=
  cellROI (cvtColorGray image) (image.getD 0 []).length image.length
    (generate_grid_edges (image.getD 0 []).length image.length cols rows).1
    (generate_grid_edges (image.getD 0 []).length image.length cols rows).2 r c

/-- The binarized cell block of cell `(r, c)`. -/
def cellBinaryOf (image : BGRImage) (cols rows r c : ℕ) (grayThr : Option ℕ) : GrayImage :=
  threshBinary (chooseThreshold grayThr (cellROIOf image cols rows r c))
    (cellROIOf image cols rows r c)

/--
Models `compute_black_matrix(image, cols, rows, black_ratio_threshold,
gray_threshold)` from mark_grid.py: `height, width = image.shape[:2]`,
the grid edges, the grayscale conversion, and the double loop writing
each non-degenerate cell's bit into the `rows × cols` zero matrix.
-/
def compute_black_matrix (image : BGRImage) (cols rows : ℕ) (thr : ℚ)
    (grayThr : Option ℕ) : List (List ℕ) :=
  (List.range rows).map
    (fun r => fillRow (fun c => cellBit (cellROIOf image cols rows r c) thr grayThr) cols)

/-! ## Claims C5, C6, C7: per-cell classification and determinism -/

lemma getD_set_entry (L : List ℕ) (n c v : ℕ) :
    (L.set n v).getD c 0 = if n = c ∧ n < L.length then v else L.getD c 0 := by
  by_cases h : n = c
  · subst h
    by_cases hl : n < L.length
    · rw [if_pos ⟨rfl, hl⟩, List.getD_eq_getElem?_getD, List.getElem?_set_eq_of_lt v hl]
      rfl
    · rw [if_neg (fun hh => hl hh.2), List.set_eq_of_length_le (by omega)]
  · rw [if_neg (fun hh => h hh.1), List.getD_eq_getElem?_getD, List.getElem?_set_ne h,
      ← List.getD_eq_getElem?_getD]

lemma fillRowAux_length (f : ℕ → Option ℕ) (cols n : ℕ) :
    ((List.range n).foldl
      (fun row c =>
        match f c with
        | none => row
        | some v => row.set c v)
      (List.replicate cols 0)).length = cols := by
  induction n with
  | zero => simp
  | succ n ih =>
    rw [List.range_succ, List.foldl_append, List.foldl_cons, List.foldl_nil]
    cases hf : f n with
    | none => simpa only [hf] using ih
    | some v =>
      simp only [hf]
      rw [List.length_set]
      exact ih

lemma fillRowAux_getD (f : ℕ → Option ℕ) (cols n c : ℕ) (hc : c < cols) :
    ((List.range n).foldl
      (fun row c =>
        match f c with
        | none => row
        | some v => row.set c v)
      (List.replicate cols 0)).getD c 0 = if c < n then (f c).getD 0 else 0 := by
  induction n with
  | zero =>
    rw [if_neg (by omega), List.range_zero, List.foldl_nil, List.getD_eq_getElem?_getD,
      List.getElem?_replicate, if_pos hc]
    rfl
  | succ n ih =>
    rw [List.range_succ, List.foldl_append, List.foldl_cons, List.foldl_nil]
    cases hf : f n with
    | none =>
      simp only [hf]
      rw [ih]
      by_cases hcn : c = n
      · subst hcn
        rw [if_neg (by omega), if_pos (by omega), hf]
        rfl
      · by_cases hlt : c < n
        · rw [if_pos hlt, if_pos (by omega)]
        · rw [if_neg hlt, if_neg (by omega)]
    | some v =>
      simp only [hf]
      rw [getD_set_entry, fillRowAux_length f cols n]
      by_cases hcn : n = c
      · subst hcn
        rw [if_pos ⟨rfl, hc⟩, if_pos (by omega), hf]
        rfl
      · rw [if_neg (fun hh => hcn hh.1), ih]
        by_cases hlt : c < n
        · rw [if_pos hlt, if_pos (by omega)]
        · rw [if_neg hlt, if_neg (by omega)]

lemma compute_black_matrix_entry (image : BGRImage) (cols rows : ℕ) (thr : ℚ)
    (grayThr : Option ℕ) (r c : ℕ) (hr : r < rows) (hc : c < cols) :
    matrixEntry (compute_black_matrix image cols rows thr grayThr) r c =
      (cellBit (cellROIOf image cols rows r c) thr grayThr).getD 0 := by
  unfold matrixEntry compute_black_matrix
  rw [getD_map_range _ _ _ _ hr]
  unfold fillRow
  rw [fillRowAux_getD _ cols cols c hc, if_pos hc]

/--
Claim C5: for every non-degenerate cell, `compute_black_matrix` sets
the cell's bit to 1 iff its black ratio
`(total_pixels - countNonZero(binary)) / total_pixels` is at least
`black_ratio_threshold`; in particular a cell whose black ratio equals
the threshold exactly is classified filled (inclusive boundary).
-/
theorem C5_threshold_inclusive (image : BGRImage) (cols rows : ℕ) (thr : ℚ)
    (grayThr : Option ℕ) (r c : ℕ) (hr : r < rows) (hc : c < cols)
    (hroi : roiSize (cellROIOf image cols rows r c) ≠ 0) :
    (matrixEntry (compute_black_matrix image cols rows thr grayThr) r c = 1 ↔
      black_ratio_value (cellBinaryOf image cols rows r c grayThr) ≥ thr) ∧
    (black_ratio_value (cellBinaryOf image cols rows r c grayThr) = thr →
      matrixEntry (compute_black_matrix image cols rows thr grayThr) r c = 1) := by
  have hchar := compute_black_matrix_entry image cols rows thr grayThr r c hr hc
  unfold cellBit at hchar
  rw [if_neg hroi] at hchar
  simp only [Option.getD_some] at hchar
  unfold cellBinaryOf
  constructor
  · rw [hchar]
    by_cases hb : black_ratio_value
        (threshBinary (chooseThreshold grayThr (cellROIOf image cols rows r c))
          (cellROIOf image cols rows r c)) ≥ thr
    · rw [if_pos hb]
      exact ⟨fun _ => hb, fun _ => rfl⟩
    · rw [if_neg hb]
      exact ⟨fun h01 => absurd h01 (by omega), fun hb' => absurd hb' hb⟩
  · intro heq
    rw [hchar, if_pos (le_of_eq heq.symm)]

/--
Witness for C5 on a 2×2 all-black image with a 1×1 grid, fixed gray
threshold 100 and `black_ratio_threshold = 1`: the single cell's black
ratio is exactly 1 (the boundary case) and the cell is classified 1.
-/
theorem C5_threshold_inclusive_witness :
    roiSize (cellROIOf [[(0, 0, 0), (0, 0, 0)], [(0, 0, 0), (0, 0, 0)]] 1 1 0 0) ≠ 0 ∧
      black_ratio_value
        (cellBinaryOf [[(0, 0, 0), (0, 0, 0)], [(0, 0, 0), (0, 0, 0)]] 1 1 0 0 (some 100)) = 1 ∧
      matrixEntry
        (compute_black_matrix [[(0, 0, 0), (0, 0, 0)], [(0, 0, 0), (0, 0, 0)]] 1 1 1 (some 100))
        0 0 = 1 := by
  have hratio : black_ratio_value
      (cellBinaryOf [[(0, 0, 0), (0, 0, 0)], [(0, 0, 0), (0, 0, 0)]] 1 1 0 0 (some 100)) = 1 := by
    unfold black_ratio_value
    rw [show roiSize
        (cellBinaryOf [[(0, 0, 0), (0, 0, 0)], [(0, 0, 0), (0, 0, 0)]] 1 1 0 0 (some 100)) = 4
      from by decide,
      show countNonZero
        (cellBinaryOf [[(0, 0, 0), (0, 0, 0)], [(0, 0, 0), (0, 0, 0)]] 1 1 0 0 (some 100)) = 0
      from by decide]
    norm_num
  exact ⟨by decide, hratio,
    (C5_threshold_inclusive [[(0, 0, 0), (0, 0, 0)], [(0, 0, 0), (0, 0, 0)]] 1 1 1 (some 100)
      0 0 (by decide) (by decide) (by decide)).2 hratio⟩

/--
Claim C6: a cell whose extracted block has zero area is skipped
without any failure: its bit in the result is 0 and every
non-degenerate cell is classified normally.
-/
theorem C6_degenerate_cell_skipped (image : BGRImage) (cols rows : ℕ) (thr : ℚ)
    (grayThr : Option ℕ) (r c : ℕ) (hr : r < rows) (hc : c < cols) :
    (roiSize (cellROIOf image cols rows r c) = 0 →
      matrixEntry (compute_black_matrix image cols rows thr grayThr) r c = 0) ∧
    (roiSize (cellROIOf image cols rows r c) ≠ 0 →
      matrixEntry (compute_black_matrix image cols rows thr grayThr) r c =
        if black_ratio_value (cellBinaryOf image cols rows r c grayThr) ≥ thr
        then 1 else 0) := by
  have hchar := compute_black_matrix_entry image cols rows thr grayThr r c hr hc
  unfold cellBit at hchar
  constructor
  · intro h0
    rw [if_pos h0] at hchar
    exact hchar
  · intro h0
    rw [if_neg h0] at hchar
    simp only [Option.getD_some] at hchar
    unfold cellBinaryOf
    exact hchar

/--
Witness for C6 on a 1×1 black image with a 2-column, 1-row grid:
column 0 is a degenerate (zero-width) cell whose bit is 0, column 1 is
a normal cell classified 1.
-/
theorem C6_degenerate_cell_skipped_witness :
    roiSize (cellROIOf [[(0, 0, 0)]] 2 1 0 0) = 0 ∧
      matrixEntry (compute_black_matrix [[(0, 0, 0)]] 2 1 (1/2) (some 100)) 0 0 = 0 ∧
      roiSize (cellROIOf [[(0, 0, 0)]] 2 1 0 1) ≠ 0 ∧
      matrixEntry (compute_black_matrix [[(0, 0, 0)]] 2 1 (1/2) (some 100)) 0 1 = 1 := by
  refine ⟨by decide, ?_, by decide, ?_⟩
  · exact (C6_degenerate_cell_skipped [[(0, 0, 0)]] 2 1 (1/2) (some 100) 0 0
      (by decide) (by decide)).1 (by decide)
  · rw [(C6_degenerate_cell_skipped [[(0, 0, 0)]] 2 1 (1/2) (some 100) 0 1
      (by decide) (by decide)).2 (by decide)]
    have hratio : black_ratio_value (cellBinaryOf [[(0, 0, 0)]] 2 1 0 1 (some 100)) = 1 := by
      unfold black_ratio_value
      rw [show roiSize (cellBinaryOf [[(0, 0, 0)]] 2 1 0 1 (some 100)) = 1 from by decide,
        show countNonZero (cellBinaryOf [[(0, 0, 0)]] 2 1 0 1 (some 100)) = 0 from by decide]
      norm_num
    rw [if_pos (by rw [hratio]; norm_num)]

/--
Claim C7: `compute_black_matrix` is deterministic — its output is a
function of the image and the grid configuration only, so two runs on
equal inputs give equal (bit-identical) results.
-/
theorem C7_determinism (image1 image2 : BGRImage) (cols1 cols2 rows1 rows2 : ℕ)
    (thr1 thr2 : ℚ) (g1 g2 : Option ℕ)
    (himg : image1 = image2) (hcols : cols1 = cols2) (hrows : rows1 = rows2)
    (hthr : thr1 = thr2) (hg : g1 = g2) :
    compute_black_matrix image1 cols1 rows1 thr1 g1 =
      compute_black_matrix image2 cols2 rows2 thr2 g2 := by
  subst himg hcols hrows hthr hg
  rfl

/-- Witness for C7 at a concrete image and configuration. -/
theorem C7_determinism_witness :
    compute_black_matrix [[(0, 0, 0)]] 1 1 (1/2) (some 100) =
      compute_black_matrix [[(0, 0, 0)]] 1 1 (1/2) (some 100) :=
  C7_determinism [[(0, 0, 0)]] [[(0, 0, 0)]] 1 1 1 1 (1/2) (1/2) (some 100) (some 100)
    rfl rfl rfl rfl rfl

/-! ## Rotation search (read.py, OMRReader.detect_aruco_markers) -/

/--
The state of the rotation-search loop of `detect_aruco_markers`:
`best_corners`, `best_ids`, `max_detected`, plus two instrumentation
fields used to express the claims — the angle whose detection the
current best came from, and the list of angles whose detection has
been evaluated so far, in order.
-/
structure RotSearch (C : Type) where
  bestCorners : Option C
  bestIds : Option (List ℤ)
  maxDetected : ℕ
  bestAngle : Option ℕ
  evaluatedAngles : List ℕ

/-- The initial state: `best_corners = None`, `best_ids = None`, `max_detected = 0`. -/
def initSearch (C : Type) : RotSearch C :=
  ⟨none, none, 0, none, []⟩

/--
The loop `for angle in [0, 90, 180, 270]` of `detect_aruco_markers`:
detect on the (rotated) image, and when `ids is not None and
len(ids) > max_detected` record the new best; `break` as soon as
`len(ids) >= 4`.  `det` maps an angle to the detector's raw output on
the correspondingly rotated image: `(corners, ids)` with `ids`
possibly `None`.
-/
def searchRotations {C : Type} (det : ℕ → C × Option (List ℤ)) :
    List ℕ → RotSearch C → RotSearch C
  | [], s => s
  | a :: rest, s =>
    match (det a).2 with
    | none =>
      searchRotations det rest
        ⟨s.bestCorners, s.bestIds, s.maxDetected, s.bestAngle, s.evaluatedAngles ++ [a]⟩
    | some l =>
      if s.maxDetected < l.length then
        if 4 ≤ l.length then
          ⟨some (det a).1, some l, l.length, some a, s.evaluatedAngles ++ [a]⟩
        else
          searchRotations det rest
            ⟨some (det a).1, some l, l.length, some a, s.evaluatedAngles ++ [a]⟩
      else
        searchRotations det rest
          ⟨s.bestCorners, s.bestIds, s.maxDetected, s.bestAngle, s.evaluatedAngles ++ [a]⟩

/--
The body of one search iteration of `detect_aruco_markers`: run the
detector on the preprocessed image, rotated when `angle != 0`.  The
OpenCV pieces are abstracted: `preprocess` models `preprocess_image`,
`rotate` models the `warpAffine` rotation by a given angle, and `det`
models `detector.detectMarkers` (returning `(corners, ids)` with `ids`
possibly `None`).
-/
def rotatedDetect {Img C : Type} (preprocess : Img → Img) (rotate : Img → ℕ → Img)
    (det : Img → C × Option (List ℤ)) (image : Img) (a : ℕ) : C × Option (List ℤ) :=
  det (if a = 0 then preprocess image else rotate (preprocess image) a)

/--
Models `OMRReader.detect_aruco_markers(image)` from read.py: the preprocessed
image, the four axis-aligned rotations in order, and the early-exit
best-count search.
-/
def detect_aruco_markers {Img C : Type} (preprocess : Img → Img)
    (rotate : Img → ℕ → Img) (det : Img → C × Option (List ℤ)) (image : Img) :
    RotSearch C :=
  searchRotations (rotatedDetect preprocess rotate det image)
    [0, 90, 180, 270] (initSearch C)

/-- The marker count the detector reports at a given rotation angle (0 when `ids` is `None`). -/
def countAt {C : Type} (det : ℕ → C × Option (List ℤ)) (a : ℕ) : ℕ :=
  match (det a).2 with
  | none => 0
  | some l => l.length

/-- The prefix of a list up to and including the first element satisfying `p`. -/
def takeUntilIncl {α : Type} (p : α → Bool) : List α → List α
  | [] => []
  | a :: rest => if p a then [a] else a :: takeUntilIncl p rest

/-! ## Claims C9 and C10: search order, early exit, and rotated-frame corners -/

lemma searchRotations_evaluated {C : Type} (det : ℕ → C × Option (List ℤ)) :
    ∀ (as : List ℕ) (s : RotSearch C), s.maxDetected < 4 →
      (searchRotations det as s).evaluatedAngles =
        s.evaluatedAngles ++ takeUntilIncl (fun a => 4 ≤ countAt det a) as := by
  intro as
  induction as with
  | nil =>
    intro s _
    simp [searchRotations, takeUntilIncl]
  | cons a rest ih =>
    intro s hs
    rw [searchRotations, takeUntilIncl]
    cases hout : (det a).2 with
    | none =>
      dsimp only
      have hcount : countAt det a = 0 := by
        unfold countAt
        rw [hout]
      rw [if_neg (by simp only [hcount, decide_eq_true_eq]; omega)]
      rw [ih _ (by simpa using hs)]
      simp
    | some l =>
      dsimp only
      have hcount : countAt det a = l.length := by
        unfold countAt
        rw [hout]
      by_cases hgt : s.maxDetected < l.length
      · rw [if_pos hgt]
        by_cases h4 : 4 ≤ l.length
        · rw [if_pos h4, if_pos (by simp only [hcount, decide_eq_true_eq]; omega)]
        · rw [if_neg h4, if_neg (by simp only [hcount, decide_eq_true_eq]; omega)]
          rw [ih _ (by simpa using (by omega : l.length < 4))]
          simp
      · rw [if_neg hgt, if_neg (by simp only [hcount, decide_eq_true_eq]; omega)]
        rw [ih _ (by simpa using hs)]
        simp

lemma searchRotations_maxDetected {C : Type} (det : ℕ → C × Option (List ℤ)) :
    ∀ (as : List ℕ) (s : RotSearch C), s.maxDetected < 4 →
      (searchRotations det as s).maxDetected =
        (takeUntilIncl (fun a => 4 ≤ countAt det a) as).foldl
          (fun m a => max m (countAt det a)) s.maxDetected := by
  intro as
  induction as with
  | nil =>
    intro s _
    simp [searchRotations, takeUntilIncl]
  | cons a rest ih =>
    intro s hs
    rw [searchRotations, takeUntilIncl]
    cases hout : (det a).2 with
    | none =>
      dsimp only
      have hcount : countAt det a = 0 := by
        unfold countAt
        rw [hout]
      rw [if_neg (by simp only [hcount, decide_eq_true_eq]; omega), List.foldl_cons,
        ih _ (by simpa using hs), hcount, Nat.max_zero]
    | some l =>
      dsimp only
      have hcount : countAt det a = l.length := by
        unfold countAt
        rw [hout]
      by_cases hgt : s.maxDetected < l.length
      · rw [if_pos hgt]
        by_cases h4 : 4 ≤ l.length
        · rw [if_pos h4, if_pos (by simp only [hcount, decide_eq_true_eq]; omega),
            List.foldl_cons, List.foldl_nil, hcount]
          dsimp only
          omega
        · rw [if_neg h4, if_neg (by simp only [hcount, decide_eq_true_eq]; omega),
            List.foldl_cons, ih _ (by simpa using (by omega : l.length < 4)), hcount]
          congr 1
          dsimp only
          omega
      · rw [if_neg hgt, if_neg (by simp only [hcount, decide_eq_true_eq]; omega),
          List.foldl_cons, ih _ (by simpa using hs), hcount]
        congr 1
        dsimp only
        omega

lemma searchRotations_best {C : Type} (det : ℕ → C × Option (List ℤ)) :
    ∀ (as : List ℕ) (s : RotSearch C),
      (∀ a, s.bestAngle = some a →
        s.bestCorners = some (det a).1 ∧ s.bestIds = (det a).2 ∧
          countAt det a = s.maxDetected ∧ a ∈ s.evaluatedAngles) →
      ∀ a, (searchRotations det as s).bestAngle = some a →
        (searchRotations det as s).bestCorners = some (det a).1 ∧
        (searchRotations det as s).bestIds = (det a).2 ∧
        countAt det a = (searchRotations det as s).maxDetected ∧
        a ∈ (searchRotations det as s).evaluatedAngles := by
  intro as
  induction as with
  | nil =>
    intro s hinv a ha
    exact hinv a ha
  | cons a0 rest ih =>
    intro s hinv a
    rw [searchRotations]
    cases hout : (det a0).2 with
    | none =>
      dsimp only
      apply ih
      intro b hb
      obtain ⟨h1, h2, h3, h4⟩ := hinv b hb
      exact ⟨h1, h2, h3, by simp [h4]⟩
    | some l =>
      dsimp only
      by_cases hgt : s.maxDetected < l.length
      · rw [if_pos hgt]
        by_cases h4 : 4 ≤ l.length
        · rw [if_pos h4]
          intro ha
          simp only [Option.some_inj] at ha
          subst ha
          refine ⟨rfl, by rw [hout], ?_, by simp⟩
          unfold countAt
          rw [hout]
        · rw [if_neg h4]
          apply ih
          intro b hb
          simp only [Option.some_inj] at hb
          subst hb
          refine ⟨rfl, by rw [hout], ?_, by simp⟩
          unfold countAt
          rw [hout]
      · rw [if_neg hgt]
        apply ih
        intro b hb
        obtain ⟨h1, h2, h3, h4⟩ := hinv b hb
        exact ⟨h1, h2, h3, by simp [h4]⟩

/--
Claim C9: the rotation search enumerates 0°, 90°, 180°, 270° in that
order, stopping (inclusive) at the first rotation whose detection
yields at least 4 markers; the retained count is the maximum over the
evaluated rotations; the retained result is the raw detection output
of the best rotation; and in particular if the 0° orientation already
yields at least 4 markers, no other orientation is evaluated and its
raw output is returned.
-/
theorem C9_rotation_early_exit {Img C : Type} (preprocess : Img → Img)
    (rotate : Img → ℕ → Img) (det : Img → C × Option (List ℤ)) (image : Img) :
    (detect_aruco_markers preprocess rotate det image).evaluatedAngles =
      takeUntilIncl
        (fun a => 4 ≤ countAt (rotatedDetect preprocess rotate det image) a)
        [0, 90, 180, 270] ∧
    (detect_aruco_markers preprocess rotate det image).maxDetected =
      ((detect_aruco_markers preprocess rotate det image).evaluatedAngles).foldl
        (fun m a => max m (countAt (rotatedDetect preprocess rotate det image) a)) 0 ∧
    (∀ a, (detect_aruco_markers preprocess rotate det image).bestAngle = some a →
      (detect_aruco_markers preprocess rotate det image).bestCorners =
        some (rotatedDetect preprocess rotate det image a).1 ∧
      (detect_aruco_markers preprocess rotate det image).bestIds =
        (rotatedDetect preprocess rotate det image a).2 ∧
      countAt (rotatedDetect preprocess rotate det image) a =
        (detect_aruco_markers preprocess rotate det image).maxDetected ∧
      a ∈ (detect_aruco_markers preprocess rotate det image).evaluatedAngles) ∧
    (4 ≤ countAt (rotatedDetect preprocess rotate det image) 0 →
      (detect_aruco_markers preprocess rotate det image).evaluatedAngles = [0] ∧
      (detect_aruco_markers preprocess rotate det image).bestCorners =
        some (rotatedDetect preprocess rotate det image 0).1 ∧
      (detect_aruco_markers preprocess rotate det image).bestIds =
        (rotatedDetect preprocess rotate det image 0).2) := by
  have hinit : (initSearch C).maxDetected < 4 := by
    simp [initSearch]
  have h1 := searchRotations_evaluated (rotatedDetect preprocess rotate det image)
    [0, 90, 180, 270] (initSearch C) hinit
  have h2 := searchRotations_maxDetected (rotatedDetect preprocess rotate det image)
    [0, 90, 180, 270] (initSearch C) hinit
  refine ⟨?_, ?_, ?_, ?_⟩
  · rw [detect_aruco_markers, h1]
    simp [initSearch]
  · rw [detect_aruco_markers, h1, h2]
    simp [initSearch]
  · intro a ha
    exact searchRotations_best (rotatedDetect preprocess rotate det image)
      [0, 90, 180, 270] (initSearch C)
      (by
        intro b hb
        simp [initSearch] at hb) a ha
  · intro h40
    cases h0 : (rotatedDetect preprocess rotate det image 0).2 with
    | none =>
      simp only [countAt, h0] at h40
      omega
    | some l =>
      have hl : 4 ≤ l.length := by
        simp only [countAt, h0] at h40
        exact h40
      have hstep : detect_aruco_markers preprocess rotate det image =
          ⟨some (rotatedDetect preprocess rotate det image 0).1, some l, l.length,
            some 0, [0]⟩ := by
        rw [detect_aruco_markers, searchRotations, h0]
        dsimp only
        rw [if_pos (by simp [initSearch]; omega), if_pos hl]
        simp [initSearch]
      rw [hstep]
      exact ⟨rfl, rfl, rfl⟩

/--
Witness for C9 with a detector double that reports 4 markers at the 0°
orientation: the search evaluates only angle 0 and returns its raw
output.
-/
theorem C9_rotation_early_exit_witness :
    4 ≤ countAt (rotatedDetect (fun (i : ℕ) => i) (fun i a => i + a)
      (fun i => if i = 0 then ((7 : ℕ), some [(0:ℤ), 1, 2, 3]) else (9, none)) 0) 0 ∧
    (detect_aruco_markers (fun (i : ℕ) => i) (fun i a => i + a)
      (fun i => if i = 0 then ((7 : ℕ), some [(0:ℤ), 1, 2, 3]) else (9, none))
      0).evaluatedAngles = [0] ∧
    (detect_aruco_markers (fun (i : ℕ) => i) (fun i a => i + a)
      (fun i => if i = 0 then ((7 : ℕ), some [(0:ℤ), 1, 2, 3]) else (9, none))
      0).bestIds = some [(0:ℤ), 1, 2, 3] := by
  have h := (C9_rotation_early_exit (fun (i : ℕ) => i) (fun i a => i + a)
    (fun i => if i = 0 then ((7 : ℕ), some [(0:ℤ), 1, 2, 3]) else (9, none)) 0).2.2.2
    (by decide)
  exact ⟨by decide, h.1, by rw [h.2.2]; rfl⟩

/--
The marker-detection and rectification slice of `run_pipeline` from
main.py: detect markers on `src`, abort when `ids is None or
len(ids) < 4`, resolve the four corner centroids, abort when that
fails, and otherwise apply the perspective correction — modelled by
the abstract `warp` — to the ORIGINAL (unrotated) `src` with those
corner coordinates.
-/
def run_pipeline_rectify {Img : Type} (preprocess : Img → Img) (rotate : Img → ℕ → Img)
    (det : Img → List Quad × Option (List ℤ)) (warp : Img → List Point → Img)
    (src : Img) : Option Img :=
  match (detect_aruco_markers preprocess rotate det src).bestIds with
  | none => none
  | some ids =>
    if ids.length < 4 then none
    else
      match find_marker_corners
        ((detect_aruco_markers preprocess rotate det src).bestCorners.getD []) (some ids) with
      | none => none
      | some pts => some (warp src pts)

/--
Claim C10: when the best rotation found by the search is a non-zero
angle, the returned marker corners are the raw detector output on the
rotated image — no transformation back into the input image's frame is
applied — and `run_pipeline` then applies the perspective correction
to the unrotated original `src` with exactly those rotated-frame
coordinates.
-/
theorem C10_rotated_frame_corners {Img : Type} (preprocess : Img → Img)
    (rotate : Img → ℕ → Img) (det : Img → List Quad × Option (List ℤ))
    (warp : Img → List Point → Img) (src : Img) (a : ℕ)
    (ha : (detect_aruco_markers preprocess rotate det src).bestAngle = some a)
    (hnz : a ≠ 0) :
    (detect_aruco_markers preprocess rotate det src).bestCorners =
      some (det (rotate (preprocess src) a)).1 ∧
    (detect_aruco_markers preprocess rotate det src).bestIds =
      (det (rotate (preprocess src) a)).2 ∧
    (∀ ids pts,
      (detect_aruco_markers preprocess rotate det src).bestIds = some ids →
      ¬ ids.length < 4 →
      find_marker_corners (det (rotate (preprocess src) a)).1 (some ids) = some pts →
      run_pipeline_rectify preprocess rotate det warp src = some (warp src pts)) := by
  have hbest := searchRotations_best (rotatedDetect preprocess rotate det src)
    [0, 90, 180, 270] (initSearch (List Quad))
    (by
      intro b hb
      simp [initSearch] at hb) a ha
  have hrot : rotatedDetect preprocess rotate det src a =
      det (rotate (preprocess src) a) := by
    unfold rotatedDetect
    rw [if_neg hnz]
  obtain ⟨hc, hi, _, _⟩ := hbest
  rw [hrot] at hc hi
  have hc2 : (detect_aruco_markers preprocess rotate det src).bestCorners =
      some (det (rotate (preprocess src) a)).1 := hc
  have hi2 : (detect_aruco_markers preprocess rotate det src).bestIds =
      (det (rotate (preprocess src) a)).2 := hi
  refine ⟨hc2, hi2, ?_⟩
  intro ids pts hids hlen hfind
  unfold run_pipeline_rectify
  rw [hids]
  dsimp only
  rw [if_neg hlen, hc2]
  dsimp only [Option.getD_some]
  rw [hfind]

/--
Witness for C10 with a detector double that reports 1 marker at 0° and
4 markers at 90°: the winning angle is 90, and the pipeline warps the
original image with the rotated-frame corner coordinates.
-/
theorem C10_rotated_frame_corners_witness :
    (detect_aruco_markers (fun (i : ℕ) => i) (fun i a => i + a)
      (fun i => if i = 0 then (([] : List Quad), some [(0:ℤ)])
        else if i = 90 then
          ([[((0:ℚ), (0:ℚ))], [((0:ℚ), (0:ℚ))], [((0:ℚ), (0:ℚ))], [((0:ℚ), (0:ℚ))]],
            some [(0:ℤ), 1, 2, 3])
        else ([], none)) 0).bestAngle = some 90 ∧
    run_pipeline_rectify (fun (i : ℕ) => i) (fun i a => i + a)
      (fun i => if i = 0 then (([] : List Quad), some [(0:ℤ)])
        else if i = 90 then
          ([[((0:ℚ), (0:ℚ))], [((0:ℚ), (0:ℚ))], [((0:ℚ), (0:ℚ))], [((0:ℚ), (0:ℚ))]],
            some [(0:ℤ), 1, 2, 3])
        else ([], none))
      (fun s (_ : List Point) => s + 1) 0 = some 1 := by
  refine ⟨rfl, ?_⟩
  rw [(C10_rotated_frame_corners (fun (i : ℕ) => i) (fun i a => i + a)
    (fun i => if i = 0 then (([] : List Quad), some [(0:ℤ)])
      else if i = 90 then
        ([[((0:ℚ), (0:ℚ))], [((0:ℚ), (0:ℚ))], [((0:ℚ), (0:ℚ))], [((0:ℚ), (0:ℚ))]],
          some [(0:ℤ), 1, 2, 3])
      else ([], none))
    (fun s (_ : List Point) => s + 1) 0 90 rfl (by decide)).2.2
    [(0:ℤ), 1, 2, 3]
    [centroid [((0:ℚ), (0:ℚ))], centroid [((0:ℚ), (0:ℚ))], centroid [((0:ℚ), (0:ℚ))],
      centroid [((0:ℚ), (0:ℚ))]]
    rfl (by decide) rfl]

/-! ## Perspective rectification (read.py, OMRReader.correct_perspective) -/

/-- The four resolved sheet corners (TL, TR, BR, BL), float coordinates modelled as reals. -/
structure Corners4 where
  tl : ℝ × ℝ
  tr : ℝ × ℝ
  br : ℝ × ℝ
  bl : ℝ × ℝ

/-- The Euclidean distance of two points, `np.linalg.norm(p - q)`. -/
noncomputable def ptDist (p q : ℝ × ℝ) : ℝ :=
  Real.sqrt ((p.1 - q.1) ^ 2 + (p.2 - q.2) ^ 2)

/-- The estimate `estimated_width = (top_width + bottom_width) / 2` from `correct_perspective`. -/
noncomputable def estimated_width (c : Corners4) : ℝ :=
  (ptDist c.tr c.tl + ptDist c.br c.bl) / 2

/-- The estimate `estimated_height = (left_height + right_height) / 2` from `correct_perspective`. -/
noncomputable def estimated_height (c : Corners4) : ℝ :=
  (ptDist c.bl c.tl + ptDist c.br c.tr) / 2

/-- Python's built-in `round`: round half to even. -/
noncomputable def pyRound (x : ℝ) : ℤ :=
  if Int.fract x = 1 / 2 then (if Even ⌊x⌋ then ⌊x⌋ else ⌊x⌋ + 1) else round x

/--
The output-size selection of `OMRReader.correct_perspective` from
read.py: with no requested size, `(max(1, round(w)), max(1, round(h)))`
from the estimates; with a requested `(target_w, target_h)`, the width
is `max(1, int(target_w))` and the height is re-derived from the
estimated aspect ratio `estimated_width / max(estimated_height, 1e-6)`
(the float literal `1e-6` modelled as `10⁻⁶`).
-/
noncomputable def correct_perspective_size (c : Corners4)
    (output_size : Option (ℤ × ℤ)) : ℤ × ℤ :=
  match output_size with
  | none => (max 1 (pyRound (estimated_width c)), max 1 (pyRound (estimated_height c)))
  | some (target_w, _target_h) =>
    (max 1 target_w,
      max 1 (pyRound (((max 1 target_w : ℤ) : ℝ) /
        (estimated_width c / max (estimated_height c) (1 / 1000000)))))

/--
The output height exactly as claim C8 words it:
`round(target_width / (width_estimate / height_estimate))`.
-/
noncomputable def claimed_output_height (c : Corners4) (target_w : ℤ) : ℤ :=
  pyRound ((target_w : ℝ) / (estimated_width c / estimated_height c))

/-! ## Claim C8: aspect-ratio preserving output size -/

/--
Claim C8: `correct_perspective` estimates the sheet width as the
average of `|TR-TL|` and `|BR-BL|` and the height as the average of
`|BL-TL|` and `|BR-TR|`; when no output size is requested, the output
is `(round(width_estimate), round(height_estimate))` each clamped to a
minimum of 1; and when an explicit target width is requested (a
positive width, with a non-vanishing height estimate and a positive
derived height, so the code's clamps are no-ops), the output is
exactly `(target_w, round(target_w / (width_estimate/height_estimate)))`,
so the output follows the estimated aspect ratio.
-/
theorem C8_aspect_preserving_size (c : Corners4) (tw th : ℤ)
    (hh : 1 / 1000000 ≤ estimated_height c)
    (htw : 1 ≤ tw)
    (hpos : 1 ≤ claimed_output_height c tw) :
    estimated_width c = (ptDist c.tr c.tl + ptDist c.br c.bl) / 2 ∧
    estimated_height c = (ptDist c.bl c.tl + ptDist c.br c.tr) / 2 ∧
    correct_perspective_size c none =
      (max 1 (pyRound (estimated_width c)), max 1 (pyRound (estimated_height c))) ∧
    correct_perspective_size c (some (tw, th)) = (tw, claimed_output_height c tw) := by
  refine ⟨rfl, rfl, rfl, ?_⟩
  unfold correct_perspective_size claimed_output_height
  dsimp only
  rw [max_eq_left hh, max_eq_right htw]
  rw [max_eq_right]
  rw [← claimed_output_height]
  exact hpos

/--
Witness for C8 on the axis-aligned quad TL=(0,0), TR=(4,0), BR=(4,2),
BL=(0,2) (estimates 4 × 2) with target width 8: the output is (8, 4).
-/
theorem C8_aspect_preserving_size_witness :
    (1 / 1000000 : ℝ) ≤ estimated_height ⟨(0, 0), (4, 0), (4, 2), (0, 2)⟩ ∧
      (1 : ℤ) ≤ 8 ∧
      claimed_output_height ⟨(0, 0), (4, 0), (4, 2), (0, 2)⟩ 8 = 4 ∧
      correct_perspective_size ⟨(0, 0), (4, 0), (4, 2), (0, 2)⟩ (some (8, 99)) = (8, 4) := by
  have hd4 : ptDist (4, 0) (0, 0) = 4 := by
    unfold ptDist
    norm_num
    rw [show (16 : ℝ) = 4 ^ 2 by norm_num, Real.sqrt_sq (by norm_num : (0:ℝ) ≤ 4)]
  have hd4' : ptDist (4, 2) (0, 2) = 4 := by
    unfold ptDist
    norm_num
    rw [show (16 : ℝ) = 4 ^ 2 by norm_num, Real.sqrt_sq (by norm_num : (0:ℝ) ≤ 4)]
  have hd2 : ptDist (0, 2) (0, 0) = 2 := by
    unfold ptDist
    norm_num
    rw [show (4 : ℝ) = 2 ^ 2 by norm_num, Real.sqrt_sq (by norm_num : (0:ℝ) ≤ 2)]
  have hd2' : ptDist (4, 2) (4, 0) = 2 := by
    unfold ptDist
    norm_num
    rw [show (4 : ℝ) = 2 ^ 2 by norm_num, Real.sqrt_sq (by norm_num : (0:ℝ) ≤ 2)]
  have hw : estimated_width ⟨(0, 0), (4, 0), (4, 2), (0, 2)⟩ = 4 := by
    unfold estimated_width
    dsimp only
    rw [hd4, hd4']
    norm_num
  have hht : estimated_height ⟨(0, 0), (4, 0), (4, 2), (0, 2)⟩ = 2 := by
    unfold estimated_height
    dsimp only
    rw [hd2, hd2']
    norm_num
  have hround4 : pyRound (4 : ℝ) = 4 := by
    unfold pyRound
    rw [if_neg (by
      rw [show (4 : ℝ) = ((4 : ℤ) : ℝ) by norm_num, Int.fract_intCast]
      norm_num)]
    rw [show (4 : ℝ) = ((4 : ℤ) : ℝ) by norm_num, round_intCast]
  have hcl : claimed_output_height ⟨(0, 0), (4, 0), (4, 2), (0, 2)⟩ 8 = 4 := by
    unfold claimed_output_height
    rw [hw, hht]
    norm_num
    exact hround4
  have hhh : (1 / 1000000 : ℝ) ≤ estimated_height ⟨(0, 0), (4, 0), (4, 2), (0, 2)⟩ := by
    rw [hht]
    norm_num
  refine ⟨hhh, by norm_num, hcl, ?_⟩
  rw [(C8_aspect_preserving_size ⟨(0, 0), (4, 0), (4, 2), (0, 2)⟩ 8 99 hhh (by norm_num)
    (by rw [hcl]; norm_num)).2.2.2, hcl]
